import Mathlib

/-!
Shallow embedding of the PR-DNSd request-handling core (`main.go`): the
per-source debounce limiter (`checkNoDoS`), the suffix-based upstream router
(`SetUpstream`, `upstreamExchange`) and the request pipeline (`ServeDNS`)
with its passive PTR cache.  Go strings are modelled as `List Char`, time
instants and durations as `Nat`, Go `int` counters as `Int`, Go maps as
functions into `Option`.
-/

namespace PRDNSd

/-- Go strings, as lists of characters. -/
abbrev Str := List Char

/-- `dns.TypeA`. -/
def typeA : Nat := 1

/-- `dns.TypePTR`. -/
def typePTR : Nat := 12

/-- `dns.TypeAAAA`. -/
def typeAAAA : Nat := 28

/-- `dns.ClassINET`. -/
def classINET : Nat := 1

/-- `dns.RcodeServerFailure`. -/
def rcodeServerFailure : Nat := 2

/-- The fields of `dns.MsgHdr` that the program reads or writes.  A Go
composite literal leaves unnamed fields at their zero value, mirrored here by
the default values. -/
structure MsgHdr where
  id : Nat := 0
  response : Bool := false
  rcode : Nat := 0
  recursionDesired : Bool := false
  recursionAvailable : Bool := false
  deriving DecidableEq, Repr

/-- A `dns.Question`. -/
structure Question where
  name : Str
  qtype : Nat
  qclass : Nat
  deriving DecidableEq, Repr

/-- The fields of `dns.RR_Header` the program uses. -/
structure RRHeader where
  name : Str := []
  rrtype : Nat := 0
  rrclass : Nat := 0
  ttl : Nat := 0
  deriving DecidableEq, Repr

/-- The answer-record shapes the handler distinguishes in its type switch:
`*dns.A` (a 4-byte IPv4 address), `*dns.AAAA` (a 16-byte IPv6 address, listed
byte by byte), `*dns.PTR`, and every other record type (the `default:
continue` case). -/
inductive RR where
  | a (hdr : RRHeader) (b0 b1 b2 b3 : Nat)
  | aaaa (hdr : RRHeader) (bytes : List Nat)
  | ptr (hdr : RRHeader) (target : Str)
  | other
  deriving DecidableEq, Repr

/-- The parts of a `dns.Msg` the handler touches. -/
structure Msg where
  hdr : MsgHdr := {}
  question : List Question := []
  answer : List RR := []
  deriving DecidableEq, Repr

/-- The dynamic type of `w.RemoteAddr()`: a `*net.UDPAddr` (connectionless
transport) carrying the source IP as rendered by `a.IP.String()` — the port is
not part of the key — or any other address type (TCP / TLS connections). -/
inductive RemoteAddr where
  | udp (ip : Str)
  | other
  deriving DecidableEq, Repr

/-- A `debounceInfo` entry: `tm time.Time`, `cnt int`. -/
structure debounceInfo where
  tm : Nat
  cnt : Int
  deriving DecidableEq, Repr

/-- The mutable parts of the `handler` struct used by the request path.
`hasStore` is whether `h.StoreDB != nil`. -/
structure HState where
  ptrMap : Str → Option Str
  lastResultSent : Str → Option debounceInfo
  DebounceDelay : Nat
  DebounceCount : Int
  hasStore : Bool

/-- Go map assignment `m[k] = v`. -/
def mapUpdate {α : Type} (m : Str → Option α) (k : Str) (v : α) : Str → Option α :=
  fun k2 => if k2 = k then some v else m k2

/-- `(*handler).checkNoDoS`: the per-source-IP debounce gate.  Only
`*net.UDPAddr` callers are checked.  The Go code calls `time.Now()` up to three
times inside one invocation; one attempt is modelled as happening at the single
instant `now`.  The nil-map initialisation is a no-op under the total-function
map model. -/
def checkNoDoS (h : HState) (w : RemoteAddr) (now : Nat) : Bool × HState :=
  match w with
  | .other => (true, h)
  | .udp ip =>
    match h.lastResultSent ip with
    | some lastReply =>
      if now < lastReply.tm + h.DebounceDelay then
        if lastReply.cnt ≤ 0 then
          (false, h)
        else
          (true, { h with lastResultSent := mapUpdate h.lastResultSent ip ⟨now, lastReply.cnt - 1⟩ })
      else
        (true, { h with lastResultSent := mapUpdate h.lastResultSent ip ⟨now, h.DebounceCount⟩ })
    | none =>
      (true, { h with lastResultSent := mapUpdate h.lastResultSent ip ⟨now, h.DebounceCount⟩ })

/-- An example handler state: burst 2, window 200, empty tables. -/
def hC4ex : HState :=
  { ptrMap := fun _ => none, lastResultSent := fun _ => none,
    DebounceDelay := 200, DebounceCount := 2, hasStore := false }

/-- `strings.Index(s, pat)`: offset of the first occurrence of `pat` in `s`,
`none` for Go's `-1`. -/
def strIndexStr : Str → Str → Option Nat
  | [], pat => if pat = [] then some 0 else none
  | c :: cs, pat =>
    if pat.isPrefixOf (c :: cs) then some 0 else (strIndexStr cs pat).map (· + 1)

/-- `strings.TrimSuffix(s, ".")`: drop one trailing `'.'` if present. -/
def trimDot (s : Str) : Str :=
  if ['.'].isSuffixOf s then s.dropLast else s

/-- Result of the candidate-scanning loop in `upstreamExchange`. -/
inductive ScanOutcome where
  | route (key : Str)
  | noMatch
  | diverge
  deriving DecidableEq, Repr

/-- The candidate-scanning loop of `upstreamExchange`:

    for dotIdx, domain := 0, qName; dotIdx >= 0; dotIdx = strings.Index(domain, ".") {
        domain = domain[dotIdx:]
        if cl, have := h.clients[domain]; have { return cl.Exchange(r, h.servers[domain]) }
        if dotIdx > 0 { domain = domain[1:] }
    }

One Lean call is one loop iteration at state `(domain, dotIdx)`;
`domain[dotIdx:]` is `domain.drop dotIdx`, and the combination
`domain[dotIdx:][1:]` taken when `dotIdx > 0` is `domain.drop (dotIdx + 1)`.
When the next separator offset is `0`, the following Go iteration tests that
same shortened string and, if it is not a configured key, re-enters the
identical state `(domain, 0)` and never terminates; that case is returned
here as `.diverge`. -/
def routeScan (clients : Str → Option Str) (domain : Str) (dotIdx : Nat) : ScanOutcome :=
  if (clients (domain.drop dotIdx)).isSome then .route (domain.drop dotIdx)
  else
    match hj : strIndexStr (if 0 < dotIdx then domain.drop (dotIdx + 1) else domain) ['.'] with
    | none => .noMatch
    | some 0 =>
      if (clients (if 0 < dotIdx then domain.drop (dotIdx + 1) else domain)).isSome then
        .route (if 0 < dotIdx then domain.drop (dotIdx + 1) else domain)
      else .diverge
    | some (j + 1) =>
      routeScan clients (if 0 < dotIdx then domain.drop (dotIdx + 1) else domain) (j + 1)
termination_by domain.length - dotIdx
decreasing_by
  have key : ∀ (s : Str) (i : Nat), strIndexStr s ['.'] = some i → i < s.length := by
    intro s
    induction s with
    | nil =>
      intro i hi
      simp [strIndexStr] at hi
    | cons c cs ih =>
      intro i hi
      rw [strIndexStr] at hi
      split at hi
      · cases hi
        simp
      · rcases Option.map_eq_some'.mp hi with ⟨j2, hj2, rfl⟩
        have := ih j2 hj2
        simpa using this
  have hlt := key _ (j + 1) hj
  by_cases hd : 0 < dotIdx <;> simp [hd, List.length_drop] at hlt ⊢ <;> omega

/-- The suffixes of `s` that begin at each separator `'.'`, in positional
order: the candidate strings the scan loop tests after the full name. -/
def dotSuffixes : Str → List Str
  | [] => []
  | c :: cs => if c = '.' then (c :: cs) :: dotSuffixes cs else dotSuffixes cs

/-- The candidate suffixes the scan loop tests for the trimmed query name `q`,
in order: the full name first, then the suffix starting at each separator. -/
def routeCandidates (q : Str) : List Str :=
  q :: dotSuffixes (q.drop 1)

/-- What `upstreamExchange` does before any network exchange: which route (key
into `h.clients` / `h.servers`) is chosen for a query name, `noUpstream` for
the `errNoUpstream(errors.New("no upstream server set"))` failure, `diverge`
when the scan loop never terminates. -/
inductive RouteOutcome where
  | exchange (key : Str)
  | noUpstream
  | diverge
  deriving DecidableEq, Repr

/-- Route selection in `upstreamExchange`: trim one trailing `"."` from the
query name, run the scan loop, and on loop exit fall back to the wildcard
entry `h.clients[""]` if present. -/
def upstreamRoute (clients : Str → Option Str) (qname : Str) : RouteOutcome :=
  match routeScan clients (trimDot qname) 0 with
  | .route k => .exchange k
  | .noMatch => if (clients []).isSome then .exchange [] else .noUpstream
  | .diverge => .diverge

/-- The two route tables built by `SetUpstream`: `h.clients` (here: the
`Net` transport string of the `dns.Client`) and `h.servers` (the upstream
address), both keyed by the domain suffix. -/
structure Upstreams where
  clients : Str → Option Str
  servers : Str → Option Str

/-- The `"="` split in `SetUpstream`: with `eqIdx := strings.Index(up, "=")`,
`domain, up = up[:eqIdx], up[eqIdx+1:]` when `eqIdx >= 0`, else the domain
stays `""`. -/
def splitDomain (up : Str) : Str × Str :=
  match strIndexStr up ['='] with
  | some i => (up.take i, up.drop (i + 1))
  | none => ([], up)

/-- The `"://"` split in `SetUpstream`: with
`protoIdx := strings.Index(up, "://")`,
`proto, up = up[:protoIdx], up[protoIdx+3:]` when `protoIdx >= 0`, else the
protocol keeps its default `"udp"`. -/
def splitProto (up : Str) : Str × Str :=
  match strIndexStr up "://".toList with
  | some i => (up.take i, up.drop (i + 3))
  | none => ("udp".toList, up)

/-- One iteration of the `SetUpstream` loop body. -/
def setUpstreamOne (u : Upstreams) (up : Str) : Upstreams :=
  let d := splitDomain up
  let p := splitProto d.2
  { clients := mapUpdate u.clients d.1 p.1, servers := mapUpdate u.servers d.1 p.2 }

/-- `(*handler).SetUpstream`: start from empty maps and process the
specifications in order. -/
def SetUpstream (upstream : List Str) : Upstreams :=
  upstream.foldl setUpstreamOne ⟨fun _ => none, fun _ => none⟩

/-- Dynamic Go types of error values that can come out of the upstream
exchange: `*net.OpError` (transport failures), `*errors.errorString` (values
built by `errors.New`, among them the wrapped no-upstream error and the `dns`
package's sentinel errors), or any other error implementation. -/
inductive GoErrType where
  | netOpError
  | errorString
  | otherErr
  deriving DecidableEq, Repr

/-- Every one of these dynamic types implements the `error` interface
(`Error() string`). -/
def implementsErrorInterface : GoErrType → Bool := fun _ => true

/-- The `switch err.(type) { case *net.OpError, errNoUpstream: ... }` test in
`ServeDNS`.  `errNoUpstream` is declared as `type errNoUpstream error`: an
interface type whose method set equals `error`'s, so in a type switch it is
matched by every error value, whatever produced it. -/
def servfailCase (t : GoErrType) : Bool :=
  t == GoErrType.netOpError || implementsErrorInterface t

/-- Result of a call to `upstreamExchange` as seen by `ServeDNS` (the
round-trip duration is never inspected, only logged): a reply, an error with
its dynamic type, or no return at all (scan-loop divergence). -/
inductive ExchangeOut where
  | ok (resp : Msg)
  | err (t : GoErrType)
  | hang
  deriving DecidableEq, Repr

/-- The network: what `cl.Exchange(r, h.servers[domain])` returns, as a
function of the selected route key, the server address, and the query. -/
def NetOracle : Type := Str → Str → Msg → ExchangeOut

/-- `(*handler).upstreamExchange`.  The call site guards
`len(r.Question) >= 1`, so the `headD` default is never used on the paths
modelled.  A missing `h.servers` entry reads as Go's zero value `""`. -/
def upstreamExchange (u : Upstreams) (net : NetOracle) (r : Msg) : ExchangeOut :=
  match upstreamRoute u.clients (r.question.headD ⟨[], 0, 0⟩).name with
  | .exchange k => net k ((u.servers k).getD []) r
  | .noUpstream => .err .errorString
  | .diverge => .hang

/-- Decimal rendering of one IPv4 byte (`strconv.AppendInt(buf, v, 10)`). -/
def natDec (n : Nat) : Str := Nat.toDigits 10 n

/-- `hexDigit[n]` for `hexDigit = "0123456789abcdef"`. -/
def hexDigit (n : Nat) : Char := "0123456789abcdef".toList.getD n '0'

/-- An IP address as the handler stores it: the 4 bytes of a `dns.A` record or
the 16 bytes of a `dns.AAAA` record. -/
inductive Addr where
  | v4 (b0 b1 b2 b3 : Nat)
  | v6 (bytes : List Nat)
  deriving DecidableEq, Repr

/-- `dns.ReverseAddr` applied to the rendering of a stored address (the code
computes `dns.ReverseAddr(a.A.String())` resp. `a.AAAA.String()`): for IPv4
the bytes in reverse, in decimal, each followed by `'.'`, then
`"in-addr.arpa."`; for IPv6 the nibbles in reverse, in hex, each followed by
`'.'`, then `"ip6.arpa."`. -/
def reverseAddrOf : Addr → Str
  | .v4 b0 b1 b2 b3 =>
    natDec b3 ++ ['.'] ++ natDec b2 ++ ['.'] ++ natDec b1 ++ ['.'] ++ natDec b0 ++ ['.']
      ++ "in-addr.arpa.".toList
  | .v6 bs =>
    bs.reverse.flatMap (fun v => [hexDigit (v % 16), '.', hexDigit (v / 16), '.'])
      ++ "ip6.arpa.".toList

/-- The address payload of an answer record, for the type switch over
`resp.Answer`: `*dns.A` and `*dns.AAAA` carry an address, everything else hits
`default: continue`. -/
def rrAddr : RR → Option Addr
  | .a _ b0 b1 b2 b3 => some (.v4 b0 b1 b2 b3)
  | .aaaa _ bs => some (.v6 bs)
  | .ptr _ _ => none
  | .other => none

/-- The `for _, answ := range resp.Answer` loop on the forwarding-success
path: for each address record, write `ptrMap[reverse] = q.Name` (under
`ptrMapLock`), and, if a store is configured, attempt the durable write,
whose success or failure (`storeOk`) is only logged.  Returns the updated map
and the list of attempted durable writes `(key, value, success)`. -/
def cacheAnswers (m : Str → Option Str) (answers : List RR) (qname : Str)
    (hasStore : Bool) (storeOk : Str → Str → Bool) :
    (Str → Option Str) × List (Str × Str × Bool) :=
  match answers with
  | [] => (m, [])
  | rr :: rest =>
    match rrAddr rr with
    | none => cacheAnswers m rest qname hasStore storeOk
    | some addr =>
      let p := reverseAddrOf addr
      let next := cacheAnswers (mapUpdate m p qname) rest qname hasStore storeOk
      (next.1, (if hasStore then [(p, qname, storeOk p qname)] else []) ++ next.2)

/-- The reply synthesized for a passive-cache PTR hit: original id, response
bit, the client's recursion-desired flag, recursion-available, the original
question section, and one PTR record with TTL 300 pointing at the cached
forward name. -/
def ptrReply (r : Msg) (q : Question) (v : Str) : Msg :=
  { hdr := { id := r.hdr.id, response := true,
             recursionDesired := r.hdr.recursionDesired, recursionAvailable := true },
    question := r.question,
    answer := [RR.ptr { name := q.name, rrtype := q.qtype, rrclass := q.qclass, ttl := 300 } v] }

/-- What one invocation of `ServeDNS` does on the client-facing side: writes
one message, returns without writing, or never returns (router divergence). -/
inductive HandleOut where
  | sent (m : Msg)
  | drop
  | hang
  deriving DecidableEq, Repr

/-- Observable result of one `ServeDNS` invocation: the write to the client,
the handler state afterwards, and the attempted durable-store writes. -/
structure ServeResult where
  out : HandleOut
  st : HState
  storePuts : List (Str × Str × Bool)

/-- `(*handler).ServeDNS`, step by step: debounce gate; questionless guard;
passive-cache PTR short-circuit (Internet-class PTR questions only);
recursion-policy refusal; upstream forwarding with the error type switch; on
success the answer-caching loop, then the upstream response is written back
unmodified. -/
def ServeDNS (u : Upstreams) (net : NetOracle) (storeOk : Str → Str → Bool)
    (h : HState) (w : RemoteAddr) (r : Msg) (now : Nat) : ServeResult :=
  let gate := checkNoDoS h w now
  let h1 := gate.2
  if gate.1 = false then ⟨.drop, h1, []⟩
  else
    match r.question with
    | [] => ⟨.drop, h1, []⟩
    | q :: _ =>
      match (if q.qtype = typePTR ∧ q.qclass = classINET then h1.ptrMap q.name else none) with
      | some v => ⟨.sent (ptrReply r q v), h1, []⟩
      | none =>
        if r.hdr.recursionDesired = false then
          ⟨.sent { hdr := { id := r.hdr.id, response := true, rcode := rcodeServerFailure } },
            h1, []⟩
        else
          match upstreamExchange u net r with
          | .hang => ⟨.hang, h1, []⟩
          | .err t =>
            if servfailCase t then
              ⟨.sent { hdr := { id := r.hdr.id, response := true,
                                recursionDesired := r.hdr.recursionDesired,
                                recursionAvailable := true,
                                rcode := rcodeServerFailure },
                       question := r.question }, h1, []⟩
            else ⟨.drop, h1, []⟩
          | .ok resp =>
            let ca := cacheAnswers h1.ptrMap resp.answer q.name h1.hasStore storeOk
            ⟨.sent resp, { h1 with ptrMap := ca.1 }, ca.2⟩

/-- The reverse-lookup names of the address records in an answer list. -/
def reverseNames (answers : List RR) : List Str :=
  answers.filterMap (fun rr => (rrAddr rr).map reverseAddrOf)

/-- An example route table: a suffix route for `.example.com` plus the
wildcard. -/
def exRouteClients : Str → Option Str :=
  fun k =>
    if k = ".example.com".toList then some "udp".toList
    else if k = [] then some "tcp-tls".toList else none

/-- An example route table holding only the wildcard route. -/
def exWildOnly : Str → Option Str :=
  fun k => if k = [] then some "udp".toList else none

/-- An example handler state with a configured durable store. -/
def hStoreEx : HState :=
  { ptrMap := fun _ => none, lastResultSent := fun _ => none,
    DebounceDelay := 200, DebounceCount := 2, hasStore := true }

/-- An example upstream table holding only a wildcard route. -/
def exUpWild : Upstreams :=
  ⟨fun k => if k = [] then some "udp".toList else none,
   fun k => if k = [] then some "9.9.9.9:53".toList else none⟩

/-- An example recursive A query for `host.example.com.`. -/
def exAQuery : Msg :=
  { hdr := { id := 77, recursionDesired := true },
    question := [⟨"host.example.com.".toList, typeA, classINET⟩] }

/-- An example upstream response: one A record `1.2.3.4`. -/
def exResp : Msg :=
  { hdr := { id := 77, response := true, recursionDesired := true,
             recursionAvailable := true },
    question := [⟨"host.example.com.".toList, typeA, classINET⟩],
    answer := [RR.a ⟨"host.example.com.".toList, typeA, classINET, 60⟩ 1 2 3 4] }

/-- An oracle that always answers with `exResp`. -/
def exNetOk : NetOracle := fun _ _ _ => .ok exResp

/-- An example questionless query. -/
def exNoQ : Msg := { hdr := { id := 5, recursionDesired := true } }

/-- An example non-recursive A query. -/
def exANoRec : Msg :=
  { hdr := { id := 3, recursionDesired := false },
    question := [⟨"host.example.com.".toList, typeA, classINET⟩] }

/-- An example handler state whose passive cache maps the reverse name of
`1.2.3.4` to `host.example.com.`. -/
def exPtrState : HState :=
  { ptrMap := fun k =>
      if k = "4.3.2.1.in-addr.arpa.".toList then some "host.example.com.".toList else none,
    lastResultSent := fun _ => none, DebounceDelay := 200, DebounceCount := 2,
    hasStore := false }

/-- An example non-recursive PTR query for a cached reverse name. -/
def exPTRqNoRec : Msg :=
  { hdr := { id := 9, recursionDesired := false },
    question := [⟨"4.3.2.1.in-addr.arpa.".toList, typePTR, classINET⟩] }

/-- An example recursive PTR query for the reverse name of `1.2.3.4`. -/
def exPTRq : Msg :=
  { hdr := { id := 8, recursionDesired := true },
    question := [⟨"4.3.2.1.in-addr.arpa.".toList, typePTR, classINET⟩] }

lemma mapUpdate_self {α : Type} (m : Str → Option α) (k : Str) (v : α) :
    mapUpdate m k v k = some v := by
  simp [mapUpdate]

lemma mapUpdate_other {α : Type} (m : Str → Option α) (k : Str) (v : α) (k2 : Str)
    (hne : k2 ≠ k) : mapUpdate m k v k2 = m k2 := by
  simp [mapUpdate, hne]

lemma mapUpdate_shadow {α : Type} (m : Str → Option α) (k : Str) (v v2 : α) :
    mapUpdate (mapUpdate m k v) k v2 = mapUpdate m k v2 := by
  funext k2
  by_cases hk : k2 = k <;> simp [mapUpdate, hk]

lemma checkNoDoS_preserves (h : HState) (w : RemoteAddr) (now : Nat) :
    ((checkNoDoS h w now).2).ptrMap = h.ptrMap ∧
    ((checkNoDoS h w now).2).hasStore = h.hasStore ∧
    ((checkNoDoS h w now).2).DebounceDelay = h.DebounceDelay ∧
    ((checkNoDoS h w now).2).DebounceCount = h.DebounceCount := by
  cases w with
  | other => exact ⟨rfl, rfl, rfl, rfl⟩
  | udp ip =>
    rcases hls : h.lastResultSent ip with _ | lr
    · simp [checkNoDoS, hls]
    · simp only [checkNoDoS, hls]
      split
      · split <;> simp
      · simp

/-- Claim C4: for a single source IP on connectionless transport, with burst
`b = h.DebounceCount` and window `w = h.DebounceDelay`: a first attempt (no
entry) is allowed and creates an entry with remaining `b` and last-time `now`;
an attempt at `now ≥ lastTime + w` is allowed and resets the entry; an attempt
inside the window is allowed with the count decremented and the time refreshed
when the count is positive, and denied when the count is `0`; and with `b = 2`
the first three attempts inside one window are allowed, the fourth is denied,
and an attempt after the window has elapsed is allowed again. -/
theorem checkNoDoS_debounce (h : HState) (ip : Str) (now : Nat) :
    (h.lastResultSent ip = none →
      checkNoDoS h (.udp ip) now =
        (true, { h with lastResultSent := mapUpdate h.lastResultSent ip ⟨now, h.DebounceCount⟩ })) ∧
    (∀ t c, h.lastResultSent ip = some ⟨t, c⟩ → t + h.DebounceDelay ≤ now →
      checkNoDoS h (.udp ip) now =
        (true, { h with lastResultSent := mapUpdate h.lastResultSent ip ⟨now, h.DebounceCount⟩ })) ∧
    (∀ t c, h.lastResultSent ip = some ⟨t, c⟩ → now < t + h.DebounceDelay → 0 < c →
      checkNoDoS h (.udp ip) now =
        (true, { h with lastResultSent := mapUpdate h.lastResultSent ip ⟨now, c - 1⟩ })) ∧
    (∀ t, h.lastResultSent ip = some ⟨t, 0⟩ → now < t + h.DebounceDelay →
      checkNoDoS h (.udp ip) now = (false, h)) ∧
    (∀ t0 t1 t2 t3 t4, h.lastResultSent ip = none → h.DebounceCount = 2 →
      t0 ≤ t1 → t1 ≤ t2 → t2 ≤ t3 → t3 < t0 + h.DebounceDelay → t3 + h.DebounceDelay ≤ t4 →
      (checkNoDoS h (.udp ip) t0).1 = true ∧
      (checkNoDoS (checkNoDoS h (.udp ip) t0).2 (.udp ip) t1).1 = true ∧
      (checkNoDoS (checkNoDoS (checkNoDoS h (.udp ip) t0).2 (.udp ip) t1).2 (.udp ip) t2).1
        = true ∧
      (checkNoDoS (checkNoDoS (checkNoDoS (checkNoDoS h (.udp ip) t0).2 (.udp ip) t1).2
        (.udp ip) t2).2 (.udp ip) t3).1 = false ∧
      (checkNoDoS (checkNoDoS (checkNoDoS (checkNoDoS (checkNoDoS h (.udp ip) t0).2
        (.udp ip) t1).2 (.udp ip) t2).2 (.udp ip) t3).2 (.udp ip) t4).1 = true) := by
  refine ⟨?_, ?_, ?_, ?_, ?_⟩
  · intro hls
    simp [checkNoDoS, hls]
  · intro t c hls hwin
    simp [checkNoDoS, hls, Nat.not_lt_of_le hwin]
  · intro t c hls hwin hc
    have hc2 : ¬ c ≤ 0 := by omega
    simp [checkNoDoS, hls, hwin, hc2]
  · intro t hls hwin
    simp [checkNoDoS, hls, hwin]
  · intro t0 t1 t2 t3 t4 hls hb h01 h12 h23 h3w h4w
    have e1 : checkNoDoS h (.udp ip) t0 =
        (true, { h with lastResultSent := mapUpdate h.lastResultSent ip ⟨t0, h.DebounceCount⟩ }) := by
      simp [checkNoDoS, hls]
    have w1 : t1 < t0 + h.DebounceDelay := by omega
    have w2 : t2 < t1 + h.DebounceDelay := by omega
    have w3 : t3 < t2 + h.DebounceDelay := by omega
    have w4 : t2 + h.DebounceDelay ≤ t4 := by omega
    rw [e1]
    have e2 : checkNoDoS { h with lastResultSent := mapUpdate h.lastResultSent ip ⟨t0, h.DebounceCount⟩ }
        (.udp ip) t1 =
        (true, { h with lastResultSent := mapUpdate h.lastResultSent ip ⟨t1, 1⟩ }) := by
      simp only [checkNoDoS, mapUpdate_self]
      rw [if_pos w1, if_neg (by rw [hb]; norm_num)]
      rw [mapUpdate_shadow, hb]
      norm_num
    rw [e2]
    have e3 : checkNoDoS { h with lastResultSent := mapUpdate h.lastResultSent ip ⟨t1, 1⟩ }
        (.udp ip) t2 =
        (true, { h with lastResultSent := mapUpdate h.lastResultSent ip ⟨t2, 0⟩ }) := by
      simp only [checkNoDoS, mapUpdate_self]
      rw [if_pos w2, if_neg (by norm_num)]
      rw [mapUpdate_shadow]
      norm_num
    rw [e3]
    have e4 : checkNoDoS { h with lastResultSent := mapUpdate h.lastResultSent ip ⟨t2, 0⟩ }
        (.udp ip) t3 =
        (false, { h with lastResultSent := mapUpdate h.lastResultSent ip ⟨t2, 0⟩ }) := by
      simp only [checkNoDoS, mapUpdate_self]
      rw [if_pos w3, if_pos (by norm_num)]
    rw [e4]
    refine ⟨rfl, rfl, rfl, rfl, ?_⟩
    simp only [checkNoDoS, mapUpdate_self]
    rw [if_neg (by omega)]

/-- A concrete run of `checkNoDoS_debounce`: burst 2, window 200, one source
IP; attempts at times 0, 50, 100, 150 are allowed, allowed, allowed, denied,
and an attempt at 400 is allowed again. -/
theorem checkNoDoS_debounce_witness :
    (checkNoDoS hC4ex (.udp "1.2.3.4".toList) 0).1 = true ∧
    (checkNoDoS (checkNoDoS hC4ex (.udp "1.2.3.4".toList) 0).2 (.udp "1.2.3.4".toList) 50).1
      = true ∧
    (checkNoDoS (checkNoDoS (checkNoDoS hC4ex (.udp "1.2.3.4".toList) 0).2
      (.udp "1.2.3.4".toList) 50).2 (.udp "1.2.3.4".toList) 100).1 = true ∧
    (checkNoDoS (checkNoDoS (checkNoDoS (checkNoDoS hC4ex (.udp "1.2.3.4".toList) 0).2
      (.udp "1.2.3.4".toList) 50).2 (.udp "1.2.3.4".toList) 100).2
      (.udp "1.2.3.4".toList) 150).1 = false ∧
    (checkNoDoS (checkNoDoS (checkNoDoS (checkNoDoS (checkNoDoS hC4ex
      (.udp "1.2.3.4".toList) 0).2 (.udp "1.2.3.4".toList) 50).2
      (.udp "1.2.3.4".toList) 100).2 (.udp "1.2.3.4".toList) 150).2
      (.udp "1.2.3.4".toList) 400).1 = true :=
  (checkNoDoS_debounce hC4ex "1.2.3.4".toList 0).2.2.2.2 0 50 100 150 400
    rfl rfl (by omega) (by omega) (by omega) (by decide) (by decide)

/-- The decision and entry `checkNoDoS` computes for one IP depend only on that
IP's entry and the two configuration fields. -/
lemma checkNoDoS_local (h h2 : HState) (ip : Str) (now : Nat)
    (hls : h2.lastResultSent ip = h.lastResultSent ip)
    (hd : h2.DebounceDelay = h.DebounceDelay)
    (hc : h2.DebounceCount = h.DebounceCount) :
    (checkNoDoS h2 (.udp ip) now).1 = (checkNoDoS h (.udp ip) now).1 ∧
    (checkNoDoS h2 (.udp ip) now).2.lastResultSent ip
      = (checkNoDoS h (.udp ip) now).2.lastResultSent ip := by
  rcases hls2 : h.lastResultSent ip with _ | lr
  · rw [hls2] at hls
    simp [checkNoDoS, hls, hls2, mapUpdate, hc]
  · rw [hls2] at hls
    simp only [checkNoDoS, hls, hls2, hd, hc]
    split
    · split <;> simp [mapUpdate, hls, hls2]
    · simp [mapUpdate]

/-- Claim C7: a debounce check keyed by one IP neither reads nor changes a
different IP's entry: the other entry is untouched, and the other IP's next
decision (and resulting entry) is the same as if the first check had not
happened. -/
theorem checkNoDoS_independent (h : HState) (ip ip2 : Str) (now now2 : Nat)
    (hne : ip2 ≠ ip) :
    ((checkNoDoS h (.udp ip) now).2.lastResultSent ip2 = h.lastResultSent ip2) ∧
    ((checkNoDoS (checkNoDoS h (.udp ip) now).2 (.udp ip2) now2).1
      = (checkNoDoS h (.udp ip2) now2).1) ∧
    ((checkNoDoS (checkNoDoS h (.udp ip) now).2 (.udp ip2) now2).2.lastResultSent ip2
      = (checkNoDoS h (.udp ip2) now2).2.lastResultSent ip2) := by
  have hframe : (checkNoDoS h (.udp ip) now).2.lastResultSent ip2 = h.lastResultSent ip2 := by
    rcases hls : h.lastResultSent ip with _ | lr
    · simp [checkNoDoS, hls, mapUpdate, hne]
    · simp only [checkNoDoS, hls]
      split
      · split
        · simp
        · simp [mapUpdate, hne]
      · simp [mapUpdate, hne]
  have hp := checkNoDoS_preserves h (.udp ip) now
  have hrest := checkNoDoS_local h (checkNoDoS h (.udp ip) now).2 ip2 now2
    hframe hp.2.2.1 hp.2.2.2
  exact ⟨hframe, hrest.1, hrest.2⟩

/-- A concrete run of `checkNoDoS_independent`: saturating `1.2.3.4` does not
change the decision or the entry for `5.6.7.8`. -/
theorem checkNoDoS_independent_witness :
    ((checkNoDoS hC4ex (.udp "1.2.3.4".toList) 0).2.lastResultSent "5.6.7.8".toList
      = hC4ex.lastResultSent "5.6.7.8".toList) ∧
    ((checkNoDoS (checkNoDoS hC4ex (.udp "1.2.3.4".toList) 0).2 (.udp "5.6.7.8".toList) 10).1
      = (checkNoDoS hC4ex (.udp "5.6.7.8".toList) 10).1) ∧
    ((checkNoDoS (checkNoDoS hC4ex (.udp "1.2.3.4".toList) 0).2
        (.udp "5.6.7.8".toList) 10).2.lastResultSent "5.6.7.8".toList
      = (checkNoDoS hC4ex (.udp "5.6.7.8".toList) 10).2.lastResultSent "5.6.7.8".toList) :=
  checkNoDoS_independent hC4ex "1.2.3.4".toList "5.6.7.8".toList 0 10 (by decide)

lemma strIndexStr_some_lt (s pat : Str) (i : Nat) (hp : pat ≠ [])
    (h : strIndexStr s pat = some i) : i < s.length := by
  induction s generalizing i with
  | nil => simp [strIndexStr, hp] at h
  | cons c cs ih =>
    rw [strIndexStr] at h
    split at h
    · cases h
      simp
    · rcases Option.map_eq_some'.mp h with ⟨j, hj, rfl⟩
      have := ih j hj
      simpa using this

lemma strIndexStr_cons_succ (c : Char) (cs pat : Str) (i : Nat)
    (h : strIndexStr (c :: cs) pat = some (i + 1)) : strIndexStr cs pat = some i := by
  rw [strIndexStr] at h
  split at h
  · cases h
  · rcases Option.map_eq_some'.mp h with ⟨j, hj, hji⟩
    have hj2 : j = i := by omega
    rw [← hj2]
    exact hj

lemma strIndexStr_char_none {s : Str} {ch : Char} (h : strIndexStr s [ch] = none) :
    ch ∉ s := by
  induction s with
  | nil => simp
  | cons c cs ih =>
    rw [strIndexStr] at h
    split at h
    · cases h
    · rename_i hpre
      have hcs : strIndexStr cs [ch] = none := by
        rcases he : strIndexStr cs [ch] with _ | j
        · rfl
        · rw [he] at h
          cases h
      have hne : ch ≠ c := by
        intro hcc
        exact hpre (by simp [List.isPrefixOf, hcc])
      simp [hne, ih hcs]

lemma strIndexStr_char_drop {s : Str} {ch : Char} {i : Nat}
    (h : strIndexStr s [ch] = some i) : ∃ rest, s.drop i = ch :: rest := by
  induction s generalizing i with
  | nil => simp [strIndexStr] at h
  | cons c cs ih =>
    rw [strIndexStr] at h
    split at h
    · rename_i hpre
      cases h
      have : ch = c := by simpa [List.isPrefixOf] using hpre
      exact ⟨cs, by simp [this]⟩
    · rcases Option.map_eq_some'.mp h with ⟨j, hj, hji⟩
      rcases ih hj with ⟨rest, hrest⟩
      exact ⟨rest, by rw [← hji]; simpa using hrest⟩

lemma dotSuffixes_of_not_mem {s : Str} (h : '.' ∉ s) : dotSuffixes s = [] := by
  induction s with
  | nil => rfl
  | cons c cs ih =>
    have : ¬ c = '.' := by
      intro hc
      exact h (by simp [hc])
    rw [dotSuffixes, if_neg this]
    exact ih (fun hm => h (by simp [hm]))

lemma dotSuffixes_decomp {s : Str} {i : Nat} (h : strIndexStr s ['.'] = some i) :
    dotSuffixes s = s.drop i :: dotSuffixes (s.drop (i + 1)) := by
  induction s generalizing i with
  | nil => simp [strIndexStr] at h
  | cons c cs ih =>
    rw [strIndexStr] at h
    split at h
    · rename_i hpre
      cases h
      have hc : c = '.' := by
        have h2 := hpre
        simp [List.isPrefixOf] at h2
        exact h2.symm
      rw [dotSuffixes, if_pos hc]
      simp
    · rename_i hpre
      rcases Option.map_eq_some'.mp h with ⟨j, hj, hji⟩
      have hc : ¬ c = '.' := by
        intro hcc
        exact hpre (by simp [List.isPrefixOf, hcc])
      rw [dotSuffixes, if_neg hc]
      rw [ih hj, ← hji]
      simp

lemma dotSuffixes_mem_length {s t : Str} (h : t ∈ dotSuffixes s) : t.length ≤ s.length := by
  induction s with
  | nil => simp [dotSuffixes] at h
  | cons c cs ih =>
    rw [dotSuffixes] at h
    split at h
    · rcases List.mem_cons.mp h with h1 | h1
      · rw [h1]
      · have := ih h1
        simp only [List.length_cons]
        omega
    · have := ih h
      simp only [List.length_cons]
      omega

lemma dotSuffixes_suffix {s t : Str} (h : t ∈ dotSuffixes s) : t <:+ s := by
  induction s with
  | nil => simp [dotSuffixes] at h
  | cons c cs ih =>
    rw [dotSuffixes] at h
    split at h
    · rcases List.mem_cons.mp h with h1 | h1
      · rw [h1]
      · exact (ih h1).trans (List.suffix_cons c cs)
    · exact (ih h).trans (List.suffix_cons c cs)

lemma dotSuffixes_pairwise (s : Str) :
    (dotSuffixes s).Pairwise (fun a b => b.length < a.length) := by
  induction s with
  | nil => simp [dotSuffixes]
  | cons c cs ih =>
    rw [dotSuffixes]
    split
    · refine List.Pairwise.cons ?_ ih
      intro t ht
      have := dotSuffixes_mem_length ht
      simp only [List.length_cons]
      omega
    · exact ih

/-- On names without empty labels the scan loop returns the first configured
key among the candidate suffixes (the current candidate, then one candidate
per remaining separator), and `noMatch` when none is configured. -/
lemma routeScan_eq_find (clients : Str → Option Str) :
    ∀ n domain dotIdx, domain.length - dotIdx ≤ n →
    ¬ ['.', '.'] <:+: domain →
    (dotIdx = 0 → ∀ rest, domain ≠ '.' :: rest) →
    (0 < dotIdx → ∃ rest, domain.drop dotIdx = '.' :: rest) →
    routeScan clients domain dotIdx =
      match (domain.drop dotIdx :: dotSuffixes (domain.drop (dotIdx + 1))).find?
          (fun c => (clients c).isSome) with
      | some k => ScanOutcome.route k
      | none => ScanOutcome.noMatch := by
  intro n
  induction n using Nat.strong_induction_on with
  | _ n ih =>
    intro domain dotIdx hn hdd hpos hdot
    rw [routeScan]
    by_cases hcl : (clients (domain.drop dotIdx)).isSome = true
    · rw [if_pos hcl,
        @List.find?_cons_of_pos _ (fun c => (clients c).isSome) (domain.drop dotIdx) _ hcl]
    · rw [if_neg hcl,
        @List.find?_cons_of_neg _ (fun c => (clients c).isSome) (domain.drop dotIdx) _ hcl]
      cases dotIdx with
      | succ k =>
        split
        · rename_i heq
          rw [if_pos (Nat.succ_pos k)] at heq
          have hnm : '.' ∉ domain.drop (k + 1 + 1) := strIndexStr_char_none heq
          rw [dotSuffixes_of_not_mem hnm]
          simp
        · rename_i heq
          rw [if_pos (Nat.succ_pos k)] at heq
          rcases strIndexStr_char_drop heq with ⟨rest, hrest⟩
          rw [List.drop_zero] at hrest
          rcases hdot (Nat.succ_pos k) with ⟨rest2, hrest2⟩
          have hdd2 : domain.drop (k + 1 + 1) = rest2 := by
            have hdr : (domain.drop (k + 1)).drop 1 = domain.drop (k + 1 + 1) :=
              List.drop_drop 1 (k + 1) domain
            rw [hrest2] at hdr
            rw [← hdr]
            simp
          have hr2 : rest2 = '.' :: rest := hdd2.symm.trans hrest
          exfalso
          apply hdd
          refine ⟨domain.take (k + 1), rest, ?_⟩
          have hdeq : domain.take (k + 1) ++ domain.drop (k + 1) = domain :=
            List.take_append_drop (k + 1) domain
          rw [hrest2, hr2] at hdeq
          simpa using hdeq
        · rename_i j heq
          rw [if_pos (Nat.succ_pos k)] at heq ⊢
          have hlt := strIndexStr_some_lt _ ['.'] (j + 1) (by simp) heq
          have hlen : (domain.drop (k + 1 + 1)).length = domain.length - (k + 1 + 1) :=
            List.length_drop _ _
          have hm : (domain.drop (k + 1 + 1)).length - (j + 1) < n := by omega
          have hrec := ih _ hm (domain.drop (k + 1 + 1)) (j + 1) le_rfl
            (fun hinf => hdd (hinf.trans (List.drop_suffix _ _).isInfix))
            (by omega)
            (fun _ => strIndexStr_char_drop heq)
          rw [hrec]
          have hdec := dotSuffixes_decomp heq
          rw [hdec]
      | zero =>
        split
        · rename_i heq
          rw [if_neg (Nat.lt_irrefl 0)] at heq
          have hnm : '.' ∉ domain := strIndexStr_char_none heq
          have hnm2 : '.' ∉ domain.drop (0 + 1) :=
            fun hmem => hnm (List.drop_subset _ _ hmem)
          rw [dotSuffixes_of_not_mem hnm2]
          simp
        · rename_i heq
          rw [if_neg (Nat.lt_irrefl 0)] at heq
          rcases strIndexStr_char_drop heq with ⟨rest, hrest⟩
          rw [List.drop_zero] at hrest
          exact absurd hrest (hpos rfl rest)
        · rename_i j heq
          rw [if_neg (Nat.lt_irrefl 0)] at heq ⊢
          have hlt := strIndexStr_some_lt _ ['.'] (j + 1) (by simp) heq
          have hm : domain.length - (j + 1) < n := by omega
          have hrec := ih _ hm domain (j + 1) le_rfl hdd
            (by omega)
            (fun _ => strIndexStr_char_drop heq)
          rw [hrec]
          cases domain with
          | nil => simp [strIndexStr] at heq
          | cons c cs =>
            have hj2 : strIndexStr cs ['.'] = some j := strIndexStr_cons_succ c cs ['.'] j heq
            have hdec := dotSuffixes_decomp hj2
            simp only [List.drop_succ_cons, List.drop_zero]
            rw [hdec]

lemma find?_max_length {p : Str → Bool} :
    ∀ l : List Str, l.Pairwise (fun a b => b.length < a.length) →
    ∀ k, l.find? p = some k → ∀ c ∈ l, p c = true → c.length ≤ k.length := by
  intro l
  induction l with
  | nil =>
    intro _ k hk
    cases hk
  | cons a t ih =>
    intro hpw k hk c hc hpc
    by_cases hpa : p a = true
    · rw [List.find?_cons_of_pos _ hpa] at hk
      cases hk
      rcases List.mem_cons.mp hc with rfl | hct
      · exact le_rfl
      · exact le_of_lt ((List.pairwise_cons.mp hpw).1 c hct)
    · rw [List.find?_cons_of_neg _ hpa] at hk
      rcases List.mem_cons.mp hc with rfl | hct
      · exact absurd hpc hpa
      · exact ih (List.pairwise_cons.mp hpw).2 k hk c hct hpc

lemma routeCandidates_pairwise (q : Str) :
    (routeCandidates q).Pairwise (fun a b => b.length < a.length) := by
  refine List.Pairwise.cons ?_ (dotSuffixes_pairwise _)
  intro t ht
  cases q with
  | nil => simp [dotSuffixes] at ht
  | cons c cs =>
    simp only [List.drop_succ_cons, List.drop_zero] at ht
    have := dotSuffixes_mem_length ht
    simp only [List.length_cons]
    omega

lemma routeCandidates_suffix {q c : Str} (h : c ∈ routeCandidates q) : c <:+ q := by
  rcases List.mem_cons.mp h with rfl | h2
  · exact List.suffix_rfl
  · exact (dotSuffixes_suffix h2).trans (List.drop_suffix 1 q)

lemma cacheAnswers_fst_lookup (answers : List RR) :
    ∀ (m : Str → Option Str) (qn : Str) (hs : Bool) (so : Str → Str → Bool) (p : Str),
    (cacheAnswers m answers qn hs so).1 p =
      if p ∈ reverseNames answers then some qn else m p := by
  induction answers with
  | nil =>
    intro m qn hs so p
    simp [cacheAnswers, reverseNames]
  | cons rr rest ih =>
    intro m qn hs so p
    rcases ha : rrAddr rr with _ | addr
    · simp only [cacheAnswers, ha]
      rw [ih]
      simp [reverseNames, List.filterMap_cons, ha]
    · simp only [cacheAnswers, ha]
      rw [ih]
      simp only [reverseNames, List.filterMap_cons, ha, Option.map_some']
      by_cases hp : p ∈ List.filterMap (fun rr => (rrAddr rr).map reverseAddrOf) rest
      · simp [reverseNames] at hp
        simp [reverseNames, hp]
      · simp [reverseNames] at hp
        by_cases hpe : p = reverseAddrOf addr
        · simp [reverseNames, hp, hpe, mapUpdate_self]
        · simp [reverseNames, hp, hpe, mapUpdate, hpe]

lemma cacheAnswers_puts_nostore (answers : List RR) :
    ∀ (m : Str → Option Str) (qn : Str) (so : Str → Str → Bool),
    (cacheAnswers m answers qn false so).2 = [] := by
  induction answers with
  | nil =>
    intro m qn so
    rfl
  | cons rr rest ih =>
    intro m qn so
    rcases ha : rrAddr rr with _ | addr <;> simp [cacheAnswers, ha, ih]

/-- Evaluation of `ServeDNS` on the forwarding-success path. -/
lemma ServeDNS_ok_eval (u : Upstreams) (net : NetOracle) (storeOk : Str → Str → Bool)
    (h : HState) (w : RemoteAddr) (r : Msg) (now : Nat)
    (q : Question) (rest : List Question) (resp : Msg)
    (hpass : (checkNoDoS h w now).1 = true)
    (hq : r.question = q :: rest)
    (hnc : (if q.qtype = typePTR ∧ q.qclass = classINET then h.ptrMap q.name else none) = none)
    (hrd : r.hdr.recursionDesired = true)
    (hex : upstreamExchange u net r = .ok resp) :
    (ServeDNS u net storeOk h w r now).out = .sent resp ∧
    (∀ p, (ServeDNS u net storeOk h w r now).st.ptrMap p =
      if p ∈ reverseNames resp.answer then some q.name else h.ptrMap p) := by
  have hp := (checkNoDoS_preserves h w now).1
  simp only [ServeDNS, hq, hpass, hp, hnc, hrd, hex]
  constructor
  · simp
  · intro p
    simp only [Bool.true_eq_false, if_false]
    rw [cacheAnswers_fst_lookup]

/-- Evaluation of `ServeDNS` on the passive-cache PTR-hit path. -/
lemma ServeDNS_ptrhit_eval (u : Upstreams) (net : NetOracle) (storeOk : Str → Str → Bool)
    (h : HState) (w : RemoteAddr) (r : Msg) (now : Nat)
    (q : Question) (rest : List Question) (v : Str)
    (hpass : (checkNoDoS h w now).1 = true)
    (hq : r.question = q :: rest)
    (hqt : q.qtype = typePTR) (hqc : q.qclass = classINET)
    (hv : h.ptrMap q.name = some v) :
    (ServeDNS u net storeOk h w r now).out = .sent (ptrReply r q v) ∧
    (∀ p, (ServeDNS u net storeOk h w r now).st.ptrMap p = h.ptrMap p) ∧
    (ServeDNS u net storeOk h w r now).storePuts = [] := by
  have hp := (checkNoDoS_preserves h w now).1
  simp only [ServeDNS, hq, hpass, hp, hqt, hqc, hv]
  simp [hp]

/-- Evaluation of `ServeDNS` on the forwarding-error path.  `servfailCase`
holds for every error type, so the synthesized failure is always written. -/
lemma ServeDNS_err_eval (u : Upstreams) (net : NetOracle) (storeOk : Str → Str → Bool)
    (h : HState) (w : RemoteAddr) (r : Msg) (now : Nat)
    (q : Question) (rest : List Question) (t : GoErrType)
    (hpass : (checkNoDoS h w now).1 = true)
    (hq : r.question = q :: rest)
    (hnc : (if q.qtype = typePTR ∧ q.qclass = classINET then h.ptrMap q.name else none) = none)
    (hrd : r.hdr.recursionDesired = true)
    (hex : upstreamExchange u net r = .err t) :
    (ServeDNS u net storeOk h w r now).out =
      .sent { hdr := { id := r.hdr.id, response := true,
                       recursionDesired := r.hdr.recursionDesired,
                       recursionAvailable := true, rcode := rcodeServerFailure },
              question := r.question } := by
  have hp := (checkNoDoS_preserves h w now).1
  have hsf : servfailCase t = true := by cases t <;> rfl
  simp only [ServeDNS, hq, hpass, hp, hnc, hrd, hex, hsf]
  simp [hq, hrd]

/-- Claim C3 (amended): for every query name that, once one trailing `'.'` is
stripped, has no empty label (it does not start with `'.'` and contains no
`".."`), the router returns the first — and, the candidate list being sorted
by strictly decreasing length, the longest — candidate suffix that is a
configured key, where the candidates are the full name followed by the suffix
at each separator (each carrying its leading separator); when no candidate is
configured it falls back to the wildcard (empty-suffix) route if present and
otherwise fails with the no-upstream error.  Every candidate is a suffix of
the trimmed name. -/
theorem upstreamRoute_longest_match (clients : Str → Option Str) (qname : Str)
    (hdd : ¬ ['.', '.'] <:+: trimDot qname)
    (hpos : ¬ ['.'] <+: trimDot qname) :
    (upstreamRoute clients qname =
      match (routeCandidates (trimDot qname)).find? (fun c => (clients c).isSome) with
      | some k => RouteOutcome.exchange k
      | none =>
        if (clients []).isSome then RouteOutcome.exchange []
        else RouteOutcome.noUpstream) ∧
    (∀ k, (routeCandidates (trimDot qname)).find? (fun c => (clients c).isSome) = some k →
      k ∈ routeCandidates (trimDot qname) ∧ (clients k).isSome = true ∧
      ∀ c ∈ routeCandidates (trimDot qname), (clients c).isSome = true →
        c.length ≤ k.length) ∧
    (∀ c ∈ routeCandidates (trimDot qname), c <:+ trimDot qname) := by
  have hpos2 : ∀ rest, trimDot qname ≠ '.' :: rest := by
    intro rest hq
    exact hpos ⟨rest, by rw [hq]; rfl⟩
  have hscan := routeScan_eq_find clients (trimDot qname).length (trimDot qname) 0
    (by omega) hdd (fun _ => hpos2) (fun h0 => absurd h0 (Nat.lt_irrefl 0))
  refine ⟨?_, ?_, fun c hc => routeCandidates_suffix hc⟩
  · rw [upstreamRoute, hscan]
    simp only [routeCandidates, List.drop_zero, Nat.zero_add]
    rcases hf : (trimDot qname :: dotSuffixes ((trimDot qname).drop 1)).find?
        (fun c => (clients c).isSome) with _ | k
    · rfl
    · rfl
  · intro k hk
    have hmem := List.mem_of_find?_eq_some hk
    have hpk := List.find?_some hk
    refine ⟨hmem, hpk, ?_⟩
    exact fun c hc hpc => find?_max_length _ (routeCandidates_pairwise _) k hk c hc hpc

/-- `upstreamRoute_longest_match` at the spec's example: routes `.example.com`
and wildcard; the query `a.b.example.com.` selects the `.example.com` route,
not the wildcard. -/
theorem upstreamRoute_longest_match_witness :
    upstreamRoute exRouteClients "a.b.example.com.".toList
      = RouteOutcome.exchange ".example.com".toList := by
  have H := upstreamRoute_longest_match exRouteClients "a.b.example.com.".toList
    (by decide) (by decide)
  rw [H.1]
  decide

lemma SetUpstream_foldl_notin :
    ∀ (l : List Str) (u : Upstreams) (d : Str),
      (∀ s2 ∈ l, (splitDomain s2).1 ≠ d) →
      (l.foldl setUpstreamOne u).clients d = u.clients d ∧
      (l.foldl setUpstreamOne u).servers d = u.servers d := by
  intro l
  induction l with
  | nil =>
    intro u d _
    exact ⟨rfl, rfl⟩
  | cons s t ih =>
    intro u d hne
    have h1 := hne s (List.mem_cons_self s t)
    have ht : ∀ s2 ∈ t, (splitDomain s2).1 ≠ d :=
      fun s2 hs2 => hne s2 (List.mem_cons_of_mem s hs2)
    rw [List.foldl_cons]
    rcases ih (setUpstreamOne u s) d ht with ⟨hc, hs⟩
    rw [hc, hs]
    constructor <;>
      · simp only [setUpstreamOne]
        exact mapUpdate_other _ _ _ _ (Ne.symm h1)

/-- Claim C10: `SetUpstream` takes the text before the first `'='` (when one
occurs) as the route's domain-suffix key and the empty key otherwise; in the
remainder, the text before `"://"` (when it occurs) becomes the transport
protocol, defaulting to `"udp"` otherwise; and when several specifications
share a domain-suffix key the one listed last determines both the stored
client transport and the stored server address for that key. -/
theorem SetUpstream_spec (l1 l2 : List Str) (s : Str)
    (hlast : ∀ s2 ∈ l2, (splitDomain s2).1 ≠ (splitDomain s).1) :
    ((SetUpstream (l1 ++ s :: l2)).clients (splitDomain s).1
        = some (splitProto (splitDomain s).2).1 ∧
      (SetUpstream (l1 ++ s :: l2)).servers (splitDomain s).1
        = some (splitProto (splitDomain s).2).2) ∧
    (∀ up i, strIndexStr up ['='] = some i →
      splitDomain up = (up.take i, up.drop (i + 1))) ∧
    (∀ up, strIndexStr up ['='] = none → splitDomain up = ([], up)) ∧
    (∀ up2, strIndexStr up2 "://".toList = none → (splitProto up2).1 = "udp".toList) := by
  refine ⟨?_, ?_, ?_, ?_⟩
  · rw [SetUpstream, List.foldl_append, List.foldl_cons]
    rcases SetUpstream_foldl_notin l2
        (setUpstreamOne (l1.foldl setUpstreamOne ⟨fun _ => none, fun _ => none⟩) s)
        (splitDomain s).1 hlast with ⟨hc, hs⟩
    rw [hc, hs]
    constructor <;>
      · simp only [setUpstreamOne]
        exact mapUpdate_self _ _ _
  · intro up i hi
    rw [splitDomain, hi]
  · intro up hi
    rw [splitDomain, hi]
  · intro up2 hi
    rw [splitProto, hi]

/-- `SetUpstream_spec` on concrete input: of two specifications for
`.example.com` the later one wins, its missing `"://"` prefix defaults the
transport to `"udp"`, and its server address is stored. -/
theorem SetUpstream_spec_witness :
    (SetUpstream [".example.com=udp://8.8.8.8:53".toList,
        ".example.com=9.9.9.9:53".toList,
        "tcp-tls://1.1.1.1:853".toList]).clients ".example.com".toList
      = some "udp".toList ∧
    (SetUpstream [".example.com=udp://8.8.8.8:53".toList,
        ".example.com=9.9.9.9:53".toList,
        "tcp-tls://1.1.1.1:853".toList]).servers ".example.com".toList
      = some "9.9.9.9:53".toList := by
  have H := (SetUpstream_spec [".example.com=udp://8.8.8.8:53".toList]
    ["tcp-tls://1.1.1.1:853".toList] ".example.com=9.9.9.9:53".toList (by decide)).1
  exact ⟨H.1, H.2⟩

/-- Claim C3 counterexample: with only the wildcard route configured, the
query name `a..b` (an empty label; such strings reach this code because a
wire-format label may contain a literal `'.'`, rendered with an escape the
separator search does not understand) makes the scan loop run forever: no
route is selected, and the no-upstream fallback is never reached. -/
theorem upstreamRoute_counterexample :
    upstreamRoute exWildOnly "a..b".toList = RouteOutcome.diverge ∧
    (exWildOnly []).isSome = true := by
  constructor
  · simp [upstreamRoute, routeScan, strIndexStr, trimDot, exWildOnly,
      List.isSuffixOf]
  · decide

lemma exExchange : upstreamExchange exUpWild exNetOk exAQuery = .ok exResp := by
  rw [upstreamExchange]
  have hroute : upstreamRoute exUpWild.clients ((exAQuery.question.headD ⟨[], 0, 0⟩).name)
      = .exchange [] := by
    simp [upstreamRoute, routeScan, strIndexStr, trimDot, exUpWild, exAQuery,
      List.isSuffixOf]
  rw [hroute]
  rfl

/-- Claim C8: a query carrying no question that passes the abuse gate yields
no response at all, no passive-cache write, and no durable-store write. -/
theorem ServeDNS_questionless (u : Upstreams) (net : NetOracle) (storeOk : Str → Str → Bool)
    (h : HState) (w : RemoteAddr) (r : Msg) (now : Nat)
    (hpass : (checkNoDoS h w now).1 = true)
    (hq : r.question = []) :
    (ServeDNS u net storeOk h w r now).out = .drop ∧
    (∀ p, (ServeDNS u net storeOk h w r now).st.ptrMap p = h.ptrMap p) ∧
    (ServeDNS u net storeOk h w r now).storePuts = [] := by
  have hp := (checkNoDoS_preserves h w now).1
  simp only [ServeDNS, hq, hpass]
  simp [hp]

/-- `ServeDNS_questionless` at a concrete questionless query. -/
theorem ServeDNS_questionless_witness :
    (ServeDNS ⟨fun _ => none, fun _ => none⟩ (fun _ _ _ => .hang) (fun _ _ => true)
        hC4ex .other exNoQ 0).out = .drop ∧
    ((ServeDNS ⟨fun _ => none, fun _ => none⟩ (fun _ _ _ => .hang) (fun _ _ => true)
        hC4ex .other exNoQ 0).st.ptrMap "4.3.2.1.in-addr.arpa.".toList
      = hC4ex.ptrMap "4.3.2.1.in-addr.arpa.".toList) ∧
    (ServeDNS ⟨fun _ => none, fun _ => none⟩ (fun _ _ _ => .hang) (fun _ _ => true)
        hC4ex .other exNoQ 0).storePuts = [] := by
  have H := ServeDNS_questionless ⟨fun _ => none, fun _ => none⟩ (fun _ _ _ => .hang)
    (fun _ _ => true) hC4ex .other exNoQ 0 rfl rfl
  exact ⟨H.1, H.2.1 _, H.2.2⟩

/-- Claim C2 (amended): for every query that passes the abuse gate, carries at
least one question, and is not answered by the passive-cache PTR
short-circuit, a recursion-desired flag of false yields the synthesized
failure response — server-failure code, original transaction id and
recursion-desired flag — and never a forwarded answer (the network oracle is
arbitrary and unused). -/
theorem ServeDNS_norecursion (u : Upstreams) (net : NetOracle) (storeOk : Str → Str → Bool)
    (h : HState) (w : RemoteAddr) (r : Msg) (now : Nat) (q : Question) (rest : List Question)
    (hpass : (checkNoDoS h w now).1 = true)
    (hq : r.question = q :: rest)
    (hnc : (if q.qtype = typePTR ∧ q.qclass = classINET then h.ptrMap q.name else none) = none)
    (hrd : r.hdr.recursionDesired = false) :
    (ServeDNS u net storeOk h w r now).out =
      .sent { hdr := { id := r.hdr.id, response := true, rcode := rcodeServerFailure,
                       recursionDesired := r.hdr.recursionDesired } } := by
  have hp := (checkNoDoS_preserves h w now).1
  simp only [ServeDNS, hq, hpass, hp, hnc, hrd]
  simp

/-- `ServeDNS_norecursion` at a concrete non-recursive A query. -/
theorem ServeDNS_norecursion_witness :
    (ServeDNS ⟨fun _ => none, fun _ => none⟩ (fun _ _ _ => .hang) (fun _ _ => true)
        hC4ex .other exANoRec 0).out =
      .sent { hdr := { id := 3, response := true, rcode := rcodeServerFailure,
                       recursionDesired := false } } := by
  have H := ServeDNS_norecursion ⟨fun _ => none, fun _ => none⟩ (fun _ _ _ => .hang)
    (fun _ _ => true) hC4ex .other exANoRec 0
    ⟨"host.example.com.".toList, typeA, classINET⟩ [] rfl rfl (by decide) rfl
  exact H

/-- Claim C2 counterexample: a non-recursive Internet-class PTR query whose
name is in the passive cache is answered by the cache short-circuit — which
runs before the recursion-policy check — with a successful PTR answer, not
with the synthesized server-failure response the claim requires. -/
theorem ServeDNS_norecursion_counterexample :
    (ServeDNS ⟨fun _ => none, fun _ => none⟩ (fun _ _ _ => .hang) (fun _ _ => true)
        exPtrState .other exPTRqNoRec 0).out =
      .sent { hdr := { id := 9, response := true, recursionDesired := false,
                       recursionAvailable := true },
              question := exPTRqNoRec.question,
              answer := [RR.ptr { name := "4.3.2.1.in-addr.arpa.".toList, rrtype := typePTR,
                                  rrclass := classINET, ttl := 300 }
                "host.example.com.".toList] } ∧
    ({ hdr := { id := 9, response := true, recursionDesired := false,
                recursionAvailable := true },
       question := exPTRqNoRec.question,
       answer := [RR.ptr { name := "4.3.2.1.in-addr.arpa.".toList, rrtype := typePTR,
                           rrclass := classINET, ttl := 300 }
         "host.example.com.".toList] } : Msg).hdr.rcode ≠ rcodeServerFailure := by
  decide

/-- Claim C6: on the forwarding-success path the outcome of the durable-store
write changes nothing: for any two store oracles the response written (the
unmodified upstream response) and the whole resulting in-memory cache agree,
and the cache holds the mapping for every address record of the answer
regardless of the store outcome. -/
theorem ServeDNS_store_failure_harmless (u : Upstreams) (net : NetOracle)
    (storeOk storeOk2 : Str → Str → Bool) (h : HState) (w : RemoteAddr) (r : Msg) (now : Nat)
    (q : Question) (rest : List Question) (resp : Msg)
    (hpass : (checkNoDoS h w now).1 = true)
    (hq : r.question = q :: rest)
    (hnc : (if q.qtype = typePTR ∧ q.qclass = classINET then h.ptrMap q.name else none) = none)
    (hrd : r.hdr.recursionDesired = true)
    (hex : upstreamExchange u net r = .ok resp) :
    (ServeDNS u net storeOk h w r now).out = .sent resp ∧
    (ServeDNS u net storeOk2 h w r now).out = .sent resp ∧
    (∀ p, (ServeDNS u net storeOk h w r now).st.ptrMap p
        = (ServeDNS u net storeOk2 h w r now).st.ptrMap p) ∧
    (∀ p, p ∈ reverseNames resp.answer →
      (ServeDNS u net storeOk h w r now).st.ptrMap p = some q.name) := by
  rcases ServeDNS_ok_eval u net storeOk h w r now q rest resp hpass hq hnc hrd hex
    with ⟨h1, h2⟩
  rcases ServeDNS_ok_eval u net storeOk2 h w r now q rest resp hpass hq hnc hrd hex
    with ⟨h3, h4⟩
  refine ⟨h1, h3, fun p => ?_, fun p hp => ?_⟩
  · rw [h2 p, h4 p]
  · rw [h2 p, if_pos hp]

/-- `ServeDNS_store_failure_harmless` at a concrete exchange: a failing store
oracle and a succeeding one give the same response and the same cached
mapping. -/
theorem ServeDNS_store_failure_harmless_witness :
    (ServeDNS exUpWild exNetOk (fun _ _ => false) hStoreEx .other exAQuery 0).out
      = .sent exResp ∧
    (ServeDNS exUpWild exNetOk (fun _ _ => true) hStoreEx .other exAQuery 0).out
      = .sent exResp ∧
    ((ServeDNS exUpWild exNetOk (fun _ _ => false) hStoreEx .other exAQuery 0).st.ptrMap
        "4.3.2.1.in-addr.arpa.".toList
      = (ServeDNS exUpWild exNetOk (fun _ _ => true) hStoreEx .other exAQuery 0).st.ptrMap
        "4.3.2.1.in-addr.arpa.".toList) ∧
    ((ServeDNS exUpWild exNetOk (fun _ _ => false) hStoreEx .other exAQuery 0).st.ptrMap
        "4.3.2.1.in-addr.arpa.".toList = some "host.example.com.".toList) := by
  have H := ServeDNS_store_failure_harmless exUpWild exNetOk (fun _ _ => false)
    (fun _ _ => true) hStoreEx .other exAQuery 0
    ⟨"host.example.com.".toList, typeA, classINET⟩ [] exResp
    rfl rfl (by decide) rfl exExchange
  exact ⟨H.1, H.2.1, H.2.2.1 _, H.2.2.2 _ (by decide)⟩

/-- Claim C5: after a forwarded query for name `N` whose upstream response
contains an address record with address `X`, the cache maps the canonical
reverse name of `X` to `N`, and a subsequent Internet-class PTR query for that
reverse name is answered synthetically from the cache — PTR target `N`, TTL
300, original id and flags, no durable-store write — identically for every
network oracle, so no upstream forwarding happens for that transaction. -/
theorem ServeDNS_cache_roundtrip (u : Upstreams) (net net2 : NetOracle)
    (storeOk storeOk2 : Str → Str → Bool) (h : HState) (r1 r2 : Msg)
    (q1 : Question) (rest1 rest2 : List Question)
    (resp : Msg) (rr : RR) (addr : Addr) (now1 now2 : Nat)
    (hq1 : r1.question = q1 :: rest1)
    (hnc : (if q1.qtype = typePTR ∧ q1.qclass = classINET then h.ptrMap q1.name else none)
      = none)
    (hrd : r1.hdr.recursionDesired = true)
    (hex : upstreamExchange u net r1 = .ok resp)
    (hin : rr ∈ resp.answer) (haddr : rrAddr rr = some addr)
    (hq2 : r2.question = ⟨reverseAddrOf addr, typePTR, classINET⟩ :: rest2) :
    ((ServeDNS u net storeOk h .other r1 now1).st.ptrMap (reverseAddrOf addr)
        = some q1.name) ∧
    ((ServeDNS u net2 storeOk2 (ServeDNS u net storeOk h .other r1 now1).st
        .other r2 now2).out
      = .sent { hdr := { id := r2.hdr.id, response := true,
                         recursionDesired := r2.hdr.recursionDesired,
                         recursionAvailable := true },
                question := r2.question,
                answer := [RR.ptr { name := reverseAddrOf addr, rrtype := typePTR,
                                    rrclass := classINET, ttl := 300 } q1.name] }) ∧
    ((ServeDNS u net2 storeOk2 (ServeDNS u net storeOk h .other r1 now1).st
        .other r2 now2).storePuts = []) := by
  have hmem : reverseAddrOf addr ∈ reverseNames resp.answer := by
    rw [reverseNames]
    exact List.mem_filterMap.mpr ⟨rr, hin, by rw [haddr]; rfl⟩
  rcases ServeDNS_ok_eval u net storeOk h .other r1 now1 q1 rest1 resp rfl hq1 hnc hrd hex
    with ⟨ho1, hm1⟩
  have hmap : (ServeDNS u net storeOk h .other r1 now1).st.ptrMap (reverseAddrOf addr)
      = some q1.name := by
    rw [hm1, if_pos hmem]
  rcases ServeDNS_ptrhit_eval u net2 storeOk2 (ServeDNS u net storeOk h .other r1 now1).st
    .other r2 now2 ⟨reverseAddrOf addr, typePTR, classINET⟩ rest2 q1.name rfl hq2 rfl rfl hmap
    with ⟨ho2, _, hp2⟩
  refine ⟨hmap, ?_, hp2⟩
  rw [ho2]
  rfl

/-- `ServeDNS_cache_roundtrip` at a concrete exchange: an A answer `1.2.3.4`
for `host.example.com.` makes the next PTR query for
`4.3.2.1.in-addr.arpa.` return `host.example.com.` with TTL 300 from the
cache, under an oracle that cannot answer anything. -/
theorem ServeDNS_cache_roundtrip_witness :
    ((ServeDNS exUpWild exNetOk (fun _ _ => true) hStoreEx .other exAQuery 0).st.ptrMap
        "4.3.2.1.in-addr.arpa.".toList = some "host.example.com.".toList) ∧
    ((ServeDNS exUpWild (fun _ _ _ => .hang) (fun _ _ => true)
        (ServeDNS exUpWild exNetOk (fun _ _ => true) hStoreEx .other exAQuery 0).st
        .other exPTRq 1).out
      = .sent { hdr := { id := 8, response := true, recursionDesired := true,
                         recursionAvailable := true },
                question := exPTRq.question,
                answer := [RR.ptr { name := "4.3.2.1.in-addr.arpa.".toList,
                                    rrtype := typePTR, rrclass := classINET, ttl := 300 }
                  "host.example.com.".toList] }) ∧
    ((ServeDNS exUpWild (fun _ _ _ => .hang) (fun _ _ => true)
        (ServeDNS exUpWild exNetOk (fun _ _ => true) hStoreEx .other exAQuery 0).st
        .other exPTRq 1).storePuts = []) := by
  have H := ServeDNS_cache_roundtrip exUpWild exNetOk (fun _ _ _ => .hang)
    (fun _ _ => true) (fun _ _ => true) hStoreEx exAQuery exPTRq
    ⟨"host.example.com.".toList, typeA, classINET⟩ [] []
    exResp (RR.a ⟨"host.example.com.".toList, typeA, classINET, 60⟩ 1 2 3 4)
    (.v4 1 2 3 4) 0 1
    rfl (by decide) rfl exExchange (by decide) rfl (by decide)
  exact H

/-- Claim C1 (the code's behavior at the failing input): an upstream-exchange
error whose dynamic type is neither `*net.OpError` nor the no-upstream error
still produces the synthesized server-failure response — the silent-drop
branch after the type switch is unreachable, because `errNoUpstream` names an
interface with the same method set as `error`, which every error value
implements. -/
theorem ServeDNS_other_error_not_dropped :
    (ServeDNS exUpWild (fun _ _ _ => .err .otherErr) (fun _ _ => true)
        hC4ex .other exAQuery 0).out =
      .sent { hdr := { id := 77, response := true, recursionDesired := true,
                       recursionAvailable := true, rcode := rcodeServerFailure },
              question := exAQuery.question } := by
  have hex : upstreamExchange exUpWild (fun _ _ _ => .err .otherErr) exAQuery
      = .err .otherErr := by
    rw [upstreamExchange]
    have hroute : upstreamRoute exUpWild.clients ((exAQuery.question.headD ⟨[], 0, 0⟩).name)
        = .exchange [] := by
      simp [upstreamRoute, routeScan, strIndexStr, trimDot, exUpWild, exAQuery,
        List.isSuffixOf]
    rw [hroute]
  exact ServeDNS_err_eval exUpWild (fun _ _ _ => .err .otherErr) (fun _ _ => true)
    hC4ex .other exAQuery 0 ⟨"host.example.com.".toList, typeA, classINET⟩ [] .otherErr
    rfl rfl (by decide) rfl hex

end PRDNSd
